import Mathlib

/-!
Shallow embedding of `monitorWazeStateData.py` (TerryOtt/MonitorWazeStateData).

Python strings are embedded as `List Char`. Fallible code (functions that can
raise or call `sys.exit`) returns `Option` or `Except PyErr`. The relevant
pieces of the third-party libraries the script calls into (`dateutil.parser`,
`pytz`, `urllib.parse`) are embedded from their known behaviour/CPython source,
restricted to the input families this program produces and consumes; each such
definition documents the restriction.
-/

/-- Convert a Lean string literal to the `List Char` representation used
throughout this development for Python strings. -/
def cl (s : String) : List Char := s.data

/-- Python `s[:k]` slice semantics for an `Int` bound `k`: a non-negative bound
takes the first `k` characters, a negative bound counts from the end and
clamps at zero. -/
def pySliceTo (k : Int) (l : List Char) : List Char :=
  if 0 ≤ k then l.take k.toNat else l.take (l.length - (-k).toNat)

/-- Python `str.endswith` on char lists. -/
def listEndsWith (l s : List Char) : Bool := s.isSuffixOf l

/-- Python `str.startswith` on char lists. -/
def listStartsWith (l s : List Char) : Bool := s.isPrefixOf l

/-- Whether a Python string ends with a `'/'` (`url.endswith('/')`). -/
def endsWithSlash (l : List Char) : Bool := l.getLast? == some '/'

/-- A timezone-normalized point in time, as produced by the script's
`parseTimestamp` (a `datetime` localized to UTC).  Python `datetime`
comparison on two same-timezone values is lexicographic on these fields. -/
structure Instant where
  year : Nat
  month : Nat
  day : Nat
  hour : Nat
  minute : Nat
  second : Nat
  micro : Nat
deriving DecidableEq, Repr

/-- Field list used for the lexicographic datetime comparison. -/
def instantKey (i : Instant) : List Nat :=
  [i.year, i.month, i.day, i.hour, i.minute, i.second, i.micro]

/-- Lexicographic strict order on equal-length `Nat` lists. -/
def natListLt : List Nat → List Nat → Bool
  | [], [] => false
  | [], _ :: _ => true
  | _ :: _, [] => false
  | a :: as, b :: bs => a < b || (a = b && natListLt as bs)

/-- Python `datetime.__lt__` for two UTC-localized datetimes. -/
def instantLt (a b : Instant) : Bool := natListLt (instantKey a) (instantKey b)

/-- Python `datetime.__le__` for two UTC-localized datetimes. -/
def instantLe (a b : Instant) : Bool := instantLt a b || a == b

/-- Python `max` over a non-empty list of datetimes: keep the current value
unless a strictly greater one appears. -/
def pyMaxInstant (x : Instant) : List Instant → Instant
  | [] => x
  | y :: ys => if instantLt x y then pyMaxInstant y ys else pyMaxInstant x ys

/-- The ways the embedded code bails out: an undefined-name lookup
(`NameError`), a raised `ValueError`, or a `sys.exit` call. -/
inductive PyErr where
  | nameError
  | valueError
  | sysExit
deriving DecidableEq, Repr

deriving instance DecidableEq for Except

/-- Embeds `_needToDoRun` (lines 43-59).  The `previousDataTimestamp is None`
branch returns `True`; the `currTimestamp <= previousDataTimestamp` branch
returns `False`; the remaining branch builds a log message that reads the
undefined name `currentTimestamp` (the parameter is spelled `currTimestamp`),
so it raises `NameError` before reaching `return True`. -/
def needToDoRun (previousDataTimestamp : Option Instant) (currTimestamp : Instant) :
    Except PyErr Bool :=
  match previousDataTimestamp with
  | none => .ok true
  | some prev =>
    if instantLe currTimestamp prev then .ok false
    else .error .nameError

/-- Character of a single decimal digit (used by `strftime` zero padding). -/
def digitChar (n : Nat) : Char := Char.ofNat (48 + n % 10)

/-- Two-digit zero-padded decimal rendering (`strftime` `%m`, `%d`, `%H`,
`%M`, `%S`; the fields of a real `datetime` are below 100). -/
def pad2 (n : Nat) : List Char := [digitChar (n / 10), digitChar n]

/-- Four-digit zero-padded decimal rendering (`strftime` `%Y`; a real
`datetime` year is below 10000). -/
def pad4 (n : Nat) : List Char :=
  [digitChar (n / 1000), digitChar (n / 100), digitChar (n / 10), digitChar n]

/-- The shared `'%Y-%m-%d %H:%M:%S'` portion of both `strftime` format strings
in the script. -/
def fmtDateTimeBase (i : Instant) : List Char :=
  pad4 i.year ++ ('-' :: (pad2 i.month ++ ('-' :: (pad2 i.day ++ (' ' :: (pad2 i.hour
    ++ (':' :: (pad2 i.minute ++ (':' :: pad2 i.second)))))))))

/-- Embeds `prettyPrintTimestamp` (lines 191-192):
`timestamp.strftime('%Y-%m-%d %H:%M:%S UTC')`. -/
def prettyPrintTimestamp (timestamp : Instant) : List Char :=
  fmtDateTimeBase timestamp ++ cl " UTC"

/-- Embeds the file name produced by `writeTimestampToArchive` (lines 363-366):
`currTimestamp.strftime('%Y-%m-%d %H:%M:%S.timestamp')`.  The format has no
`%f`, so the microsecond field never reaches the name. -/
def writeTimestampEntryName (currTimestamp : Instant) : List Char :=
  fmtDateTimeBase currTimestamp ++ cl ".timestamp"

/-- Numeric value of a decimal digit character, if it is one. -/
def digitVal (c : Char) : Option Nat :=
  if '0' ≤ c && c ≤ '9' then some (c.toNat - 48) else none

/-- Parse exactly two decimal digits. -/
def parse2 : List Char → Option (Nat × List Char)
  | a :: b :: rest =>
    match digitVal a, digitVal b with
    | some x, some y => some (10 * x + y, rest)
    | _, _ => none
  | _ => none

/-- Parse exactly four decimal digits. -/
def parse4 : List Char → Option (Nat × List Char)
  | a :: b :: c :: d :: rest =>
    match digitVal a, digitVal b, digitVal c, digitVal d with
    | some w, some x, some y, some z => some (1000 * w + 100 * x + 10 * y + z, rest)
    | _, _, _, _ => none
  | _ => none

/-- Consume one expected character. -/
def expectChar (c : Char) : List Char → Option (List Char)
  | x :: rest => if x = c then some rest else none
  | [] => none

/-- Take a maximal run of decimal digits. -/
def takeDigits : List Char → List Nat × List Char
  | [] => ([], [])
  | c :: rest =>
    match digitVal c with
    | some d =>
      let (ds, r) := takeDigits rest
      (d :: ds, r)
    | none => ([], c :: rest)

/-- Value in microseconds of a fractional-second digit run of length 1..6
(`.844030` gives 844030, `.5` gives 500000). -/
def digitsToMicro (ds : List Nat) : Option Nat :=
  if ds.length = 0 || 6 < ds.length then none
  else some (ds.foldl (fun a d => 10 * a + d) 0 * 10 ^ (6 - ds.length))

/-- Embeds `dateutil.parser.parse` restricted to the timestamp family this
script produces and consumes: `YYYY-MM-DD HH:MM:SS`, optionally followed by a
1-6 digit fractional-second part, optionally followed by the literal
`' UTC'`.  Returns the parsed fields plus whether a timezone was attached
(`dateutil` returns a tz-aware datetime exactly when the `UTC` suffix is
present).  Out-of-range fields or trailing garbage fail, as `dateutil` raises
`ValueError` there.  The optional fractional part, optional `' UTC'` marker
and range checks live in `dateutilParseTail`; `dateutilParse` parses the
six-field date-time prefix. -/
def dateutilParseTail (y mo d h mi sec : Nat) (r : List Char) : Option (Instant × Bool) :=
  match (match r with
    | '.' :: r2 =>
      match digitsToMicro (takeDigits r2).1 with
      | some m => some (m, (takeDigits r2).2)
      | none => none
    | _ => some (0, r)) with
  | none => none
  | some (micro, r4) =>
    match (match r4 with
      | [] => some false
      | _ => if r4 = cl " UTC" then some true else none) with
    | none => none
    | some hasTz =>
      if 1 ≤ mo && mo ≤ 12 && 1 ≤ d && d ≤ 31 && h ≤ 23 && mi ≤ 59 && sec ≤ 59 then
        some (⟨y, mo, d, h, mi, sec, micro⟩, hasTz)
      else none

def dateutilParse (s : List Char) : Option (Instant × Bool) :=
  match parse4 s with
  | none => none
  | some (y, r) =>
  match expectChar '-' r with
  | none => none
  | some r =>
  match parse2 r with
  | none => none
  | some (mo, r) =>
  match expectChar '-' r with
  | none => none
  | some r =>
  match parse2 r with
  | none => none
  | some (d, r) =>
  match expectChar ' ' r with
  | none => none
  | some r =>
  match parse2 r with
  | none => none
  | some (h, r) =>
  match expectChar ':' r with
  | none => none
  | some r =>
  match parse2 r with
  | none => none
  | some (mi, r) =>
  match expectChar ':' r with
  | none => none
  | some r =>
  match parse2 r with
  | none => none
  | some (sec, r) => dateutilParseTail y mo d h mi sec r

/-- Embeds `parseTimestamp` (lines 119-134).  `dateutil.parser.parse` failure
raises `ValueError`, which the handler re-raises (it does NOT return `None`;
the trailing `return None` is unreachable).  When `dateutil` returns a
tz-aware datetime (input carrying `' UTC'`), `pytz.utc.localize` raises
`ValueError` inside the same `try`, which is likewise re-raised.  Only a
tz-naive parse reaches the `return`, localized to UTC. -/
def parseTimestamp (possibleTimestamp : List Char) : Except PyErr Instant :=
  match dateutilParse possibleTimestamp with
  | none => .error .valueError
  | some (_, true) => .error .valueError
  | some (i, false) => .ok i

/-- Loop body of `getPreviousDataTimestamp` (lines 96-110): for each directory
entry, slice off the last 10 characters (`len('.timestamp')`), parse the
remainder (a parse failure raises out of the whole function), and keep the
parsed value only when the entry name ends in `.timestamp`. -/
def collectTimestamps : List (List Char) → Except PyErr (List Instant)
  | [] => .ok []
  | currFile :: rest =>
    let supposed := pySliceTo ((currFile.length : Int) - 10) currFile
    match parseTimestamp supposed with
    | .error e => .error e
    | .ok parsed =>
      if listEndsWith currFile (cl ".timestamp") then
        match collectTimestamps rest with
        | .error e => .error e
        | .ok l => .ok (parsed :: l)
      else
        collectTimestamps rest

/-- Embeds `getPreviousDataTimestamp` (lines 87-115) as a function of the
directory listing of `timestamp_archive`: collect the parsed timestamps of the
`.timestamp` entries and return their maximum, or `None` when there are none. -/
def getPreviousDataTimestamp (files : List (List Char)) : Except PyErr (Option Instant) :=
  match collectTimestamps files with
  | .error e => .error e
  | .ok [] => .ok none
  | .ok (t :: ts) => .ok (some (pyMaxInstant t ts))

/-- Shared concrete instant: the root page generation time
`2016-07-20 20:34:36.844030 UTC` used by the spec's scenarios. -/
def instMicro : Instant := ⟨2016, 7, 20, 20, 34, 36, 844030⟩

/-- Shared concrete instant: the same point in time truncated to whole
seconds. -/
def instSec : Instant := ⟨2016, 7, 20, 20, 34, 36, 0⟩

/-- Python `\s` (ASCII subset; all content this program scans is ASCII). -/
def isPySpace (c : Char) : Bool :=
  c = ' ' || c = '\t' || c = '\n' || c = '\r' || c = '\x0b' || c = '\x0c'

/-- Capture loop for the non-greedy group in `href\s*=\s*"(.+?)"`: stop at the
first `'"'`; `.` never matches a newline; the accumulator is reversed. -/
def capQuoteGo : List Char → List Char → Option (List Char)
  | acc, c :: rest =>
    if c = '"' then some acc.reverse
    else if c = '\n' then none
    else capQuoteGo (c :: acc) rest
  | _, [] => none

/-- The `(.+?)"` tail of the href pattern: the group needs at least one
character (the first character is consumed unconditionally, even a quote),
then ends at the next `'"'`. -/
def capQuote : List Char → Option (List Char)
  | [] => none
  | c :: rest => if c = '\n' then none else capQuoteGo [c] rest

/-- Try to match `href\s*=\s*"(.+?)"` starting exactly at the head of the
input, returning the capture group.  `\s*` is greedy, but since `'='` and
`'"'` are not whitespace the split is deterministic. -/
def matchHrefAt : List Char → Option (List Char)
  | 'h' :: 'r' :: 'e' :: 'f' :: rest =>
    match rest.dropWhile isPySpace with
    | '=' :: rest2 =>
      match rest2.dropWhile isPySpace with
      | '"' :: rest3 => capQuote rest3
      | _ => none
    | _ => none
  | _ => none

/-- `re.search('href\s*=\s*"(.+?)"', s)`: try every start position, left to
right. -/
def searchHref : List Char → Option (List Char)
  | [] => none
  | c :: rest =>
    match matchHrefAt (c :: rest) with
    | some cap => some cap
    | none => searchHref rest

/-- Embeds `parseHref` (lines 324-333): the first `href="..."` value in the
anchor text, or `None` for the `sys.exit` branch when the pattern is absent. -/
def parseHref (htmlLink : List Char) : Option (List Char) := searchHref htmlLink

/-- Scan for the earliest `</a>` closing tag, with no newline allowed before
it (the `.` in `.*?` does not match `\n`).  Returns the skipped middle and
the input after the closing tag. -/
def findCloseTag : List Char → Option (List Char × List Char)
  | '<' :: '/' :: 'a' :: '>' :: rest => some ([], rest)
  | c :: rest =>
    if c = '\n' then none
    else
      match findCloseTag rest with
      | some (mid, r) => some (c :: mid, r)
      | none => none
  | [] => none

/-- Try to match `<a\s+href.*?<\/a>` starting exactly at the head of the
input, returning the full matched span and the rest of the input. -/
def matchAnchorAt : List Char → Option (List Char × List Char)
  | '<' :: 'a' :: rest =>
    let ws := rest.takeWhile isPySpace
    if ws.isEmpty then none
    else
      match rest.dropWhile isPySpace with
      | 'h' :: 'r' :: 'e' :: 'f' :: rest2 =>
        match findCloseTag rest2 with
        | some (mid, after) =>
          some ('<' :: 'a' :: ws ++ 'h' :: 'r' :: 'e' :: 'f' :: mid ++ cl "</a>", after)
        | none => none
      | _ => none
  | _ => none

/-- Fueled scan for `re.findall('<a\s+href.*?<\/a>', s)`: non-overlapping
leftmost matches.  Each successful match consumes at least one character, so
fuel equal to the input length never runs out. -/
def findAnchorsGo : Nat → List Char → List (List Char)
  | 0, _ => []
  | _ + 1, [] => []
  | n + 1, c :: rest =>
    match matchAnchorAt (c :: rest) with
    | some (m, after) => m :: findAnchorsGo n after
    | none => findAnchorsGo n rest

/-- `re.findall('<a\s+href.*?<\/a>', htmlContent)`. -/
def findAnchors (htmlContent : List Char) : List (List Char) :=
  findAnchorsGo htmlContent.length htmlContent

/-- Loop of `getHtmlLinks` (lines 311-321): keep each anchor whose href does
not begin with `http://` or `https://`; a missing href makes `parseHref`
call `sys.exit` (`none`). -/
def goLinks : List (List Char) → Option (List (List Char))
  | [] => some []
  | l :: rest =>
    match parseHref l with
    | none => none
    | some hrefPortion =>
      match goLinks rest with
      | none => none
      | some acc =>
        if !listStartsWith hrefPortion (cl "http://")
            && !listStartsWith hrefPortion (cl "https://") then
          some (l :: acc)
        else
          some acc

/-- Embeds `getHtmlLinks` (lines 308-321). -/
def getHtmlLinks (htmlContent : List Char) : Option (List (List Char)) :=
  goLinks (findAnchors htmlContent)

/-- An anchor whose href parses and is not an absolute `http(s)://`
reference; `getHtmlLinks` is the filter of this predicate when it succeeds. -/
def isRelativeAnchor (l : List Char) : Bool :=
  match parseHref l with
  | some h => !listStartsWith h (cl "http://") && !listStartsWith h (cl "https://")
  | none => false

/-- Capture loop for `Generated: (.+?) UTC`: stop at the earliest `' UTC'`
literal; no newline may be crossed. -/
def capGenGo : List Char → List Char → Option (List Char)
  | acc, ' ' :: 'U' :: 'T' :: 'C' :: _ => some acc.reverse
  | acc, c :: rest => if c = '\n' then none else capGenGo (c :: acc) rest
  | _, [] => none

/-- The `(.+?) UTC` tail: at least one captured character. -/
def capGen : List Char → Option (List Char)
  | [] => none
  | c :: rest => if c = '\n' then none else capGenGo [c] rest

/-- `re.search('Generated: (.+?) UTC', s)`: try each start position; at a
position where the literal prefix matches but the capture fails, the engine
moves on to the next start. -/
def searchGenerated : List Char → Option (List Char)
  | [] => none
  | c :: rest =>
    if listStartsWith (c :: rest) (cl "Generated: ") then
      match capGen ((c :: rest).drop 11) with
      | some cap => some cap
      | none => searchGenerated rest
    else
      searchGenerated rest

/-- Embeds `parseDataTimestampFromIndexPage` (lines 167-188): a missing
marker is `sys.exit`, otherwise the capture goes to `parseTimestamp`. -/
def parseDataTimestampFromIndexPage (htmlContent : List Char) : Except PyErr Instant :=
  match searchGenerated htmlContent with
  | none => .error .sysExit
  | some possibleTimestamp => parseTimestamp possibleTimestamp

/-- Reverse-scan loop of `removeLastToken` (lines 336-348): indices run from
`len-1` down to `1` (index 0 is never examined), looking for `'/'`; the
result keeps the slash.  `none` models the `sys.exit` fall-through. -/
def removeLastTokenGo : List Char → Option (List Char)
  | [] => none
  | c :: rest =>
    if rest.isEmpty then none
    else if c = '/' then some (rest.reverse ++ [c])
    else removeLastTokenGo rest

/-- Embeds `removeLastToken` (lines 336-348). -/
def removeLastToken (url : List Char) : Option (List Char) :=
  removeLastTokenGo url.reverse

/-- Embeds `mergeParentAndRelativeUrl` (lines 350-355): plain string
concatenation after trimming a non-`/`-terminated parent back to its last
slash. -/
def mergeParentAndRelativeUrl (parentUrl relativeUrl : List Char) : Option (List Char) :=
  if endsWithSlash parentUrl then some (parentUrl ++ relativeUrl)
  else (removeLastToken parentUrl).map (· ++ relativeUrl)

/-- ASCII letter test (CPython `str.isalpha` on the ASCII inputs here). -/
def asciiAlpha (c : Char) : Bool :=
  ('a' ≤ c && c ≤ 'z') || ('A' ≤ c && c ≤ 'Z')

/-- ASCII digit test. -/
def asciiDigit (c : Char) : Bool := '0' ≤ c && c ≤ '9'

/-- CPython `scheme_chars`: letters, digits, `+`, `-`, `.`. -/
def schemeChar (c : Char) : Bool :=
  asciiAlpha c || asciiDigit c || c = '+' || c = '-' || c = '.'

/-- ASCII lower-casing (CPython lower-cases the detected scheme). -/
def asciiLower (c : Char) : Char :=
  if 'A' ≤ c && c ≤ 'Z' then Char.ofNat (c.toNat + 32) else c

/-- Split a list at the first character satisfying `p`: the part before it
and the part after it, or `none` when no character matches. -/
def splitAtFirst (p : Char → Bool) : List Char → Option (List Char × List Char)
  | [] => none
  | c :: rest =>
    if p c then some ([], rest)
    else (splitAtFirst p rest).map (fun ab => (c :: ab.1, ab.2))

/-- The five fields `urlsplit` produces. -/
structure UrlParts where
  scheme : List Char
  netloc : List Char
  path : List Char
  query : List Char
  fragment : List Char
deriving DecidableEq, Repr

/-- CPython removes `\t`, `\r`, `\n` from a URL before splitting it
(`_UNSAFE_URL_BYTES_TO_REMOVE`). -/
def stripControlBytes (url : List Char) : List Char :=
  url.filter (fun c => !(c = '\t' || c = '\r' || c = '\n'))

/-- Character that terminates the netloc portion. -/
def netlocEnd (c : Char) : Bool := c = '/' || c = '?' || c = '#'

/-- Embeds CPython `urllib.parse.urlsplit` (modern 3.x): strip unsafe bytes;
detect a scheme (a leading alphabetic character followed by scheme characters
up to the first `:`), falling back to the supplied default; consume `//` and
the netloc; split off the fragment at the first `#` and the query at the
first `?`.  The bracket-validation `ValueError` for IPv6 netlocs is not
modelled (no input here contains brackets), and `;` parameters are not
split (CPython only splits them from the last path segment; no input here
contains `;`). -/
def urlsplit (url0 defaultScheme : List Char) : UrlParts :=
  let url1 := stripControlBytes url0
  let su :=
    match splitAtFirst (· = ':') url1 with
    | some (pre, post) =>
      if (match pre with | c :: _ => asciiAlpha c | [] => false) && pre.all schemeChar then
        (pre.map asciiLower, post)
      else
        (defaultScheme, url1)
    | none => (defaultScheme, url1)
  let nu :=
    if su.2.take 2 = cl "//" then
      ((su.2.drop 2).takeWhile (fun c => !netlocEnd c),
        (su.2.drop 2).dropWhile (fun c => !netlocEnd c))
    else ([], su.2)
  let uf :=
    match splitAtFirst (· = '#') nu.2 with
    | some (a, b) => (a, b)
    | none => (nu.2, [])
  let pq :=
    match splitAtFirst (· = '?') uf.1 with
    | some (a, b) => (a, b)
    | none => (uf.1, [])
  ⟨su.1, nu.1, pq.1, pq.2, uf.2⟩

/-- Embeds CPython `urllib.parse.urlunsplit`. -/
def urlunsplit (u : UrlParts) : List Char :=
  let url := u.path
  let url :=
    if u.netloc ≠ [] || listStartsWith url (cl "//") then
      cl "//" ++ u.netloc ++ (if url ≠ [] && !listStartsWith url (cl "/") then '/' :: url else url)
    else url
  let url := if u.scheme ≠ [] then u.scheme ++ ':' :: url else url
  let url := if u.query ≠ [] then url ++ '?' :: u.query else url
  if u.fragment ≠ [] then url ++ '#' :: u.fragment else url

/-- CPython `uses_relative`. -/
def usesRelative : List (List Char) :=
  [cl "", cl "ftp", cl "http", cl "gopher", cl "nntp", cl "imap", cl "wais", cl "file",
   cl "https", cl "shttp", cl "mms", cl "prospero", cl "rtsp", cl "rtspu", cl "sftp",
   cl "svn", cl "svn+ssh", cl "ws", cl "wss"]

/-- CPython `uses_netloc`. -/
def usesNetloc : List (List Char) :=
  [cl "", cl "ftp", cl "http", cl "gopher", cl "nntp", cl "telnet", cl "imap", cl "wais",
   cl "file", cl "mms", cl "https", cl "shttp", cl "snews", cl "prospero", cl "rtsp",
   cl "rtspu", cl "rsync", cl "svn", cl "svn+ssh", cl "sftp", cl "nfs", cl "git",
   cl "git+ssh", cl "ws", cl "wss"]

/-- Python `str.split(sep)` for a one-character separator: never empty, keeps
empty fields. -/
def splitChar (sep : Char) : List Char → List (List Char)
  | [] => [[]]
  | c :: rest =>
    let r := splitChar sep rest
    if c = sep then [] :: r
    else
      match r with
      | h :: t => (c :: h) :: t
      | [] => [[c]]

/-- Python `'/'.join`. -/
def joinSlash : List (List Char) → List Char
  | [] => []
  | [x] => x
  | x :: rest => x ++ '/' :: joinSlash rest

/-- CPython's `segments[1:-1] = filter(None, segments[1:-1])`: drop empty
segments strictly between the first and last elements. -/
def pyMidFilter : List (List Char) → List (List Char)
  | [] => []
  | [x] => [x]
  | x :: y :: rest =>
    x :: ((y :: rest).dropLast.filter (fun s => !s.isEmpty)) ++ [(y :: rest).getLastD []]

/-- CPython's dot-segment resolution loop in `urljoin`: `..` pops the last
resolved segment (an empty stack stays empty), `.` is skipped, anything else
is pushed. -/
def resolveSegs (acc : List (List Char)) : List (List Char) → List (List Char)
  | [] => acc
  | s :: rest =>
    if s = cl ".." then resolveSegs acc.dropLast rest
    else if s = cl "." then resolveSegs acc rest
    else resolveSegs (acc ++ [s]) rest

/-- The segment list CPython's `urljoin` resolves: an absolute url path is
split on `/` directly; a relative one is appended to the base path's
directory parts, with empty interior segments dropped (the
`segments[1:-1] = filter(None, segments[1:-1])` line). -/
def urljoinSegments (bpath upath : List Char) : List (List Char) :=
  let baseParts0 := splitChar '/' bpath
  let baseParts :=
    if baseParts0.getLastD [] ≠ [] then baseParts0.dropLast else baseParts0
  if listStartsWith upath (cl "/") then splitChar '/' upath
  else pyMidFilter (baseParts ++ splitChar '/' upath)

/-- The resolved path CPython's `urljoin` computes: dot segments resolved, a
trailing `.`/`..` keeping the directory form, empty result replaced by `/`. -/
def urljoinResolvedPath (bpath upath : List Char) : List Char :=
  let segments := urljoinSegments bpath upath
  let resolved := resolveSegs [] segments
  let resolved :=
    if segments.getLastD [] = cl "." || segments.getLastD [] = cl ".." then
      resolved ++ [[]]
    else resolved
  let p := joinSlash resolved
  if p.isEmpty then cl "/" else p

/-- Embeds CPython `urllib.parse.urljoin` for schemes in `uses_relative`
(the `;` parameter handling of `urlparse` is not modelled; see `urlsplit`). -/
def urljoin (base url : List Char) : List Char :=
  if base.isEmpty then url
  else if url.isEmpty then base
  else
    let b := urlsplit base []
    let u := urlsplit url b.scheme
    if u.scheme ≠ b.scheme || u.scheme ∉ usesRelative then url
    else
      let inNetloc := u.scheme ∈ usesNetloc
      if inNetloc && u.netloc ≠ [] then
        urlunsplit ⟨u.scheme, u.netloc, u.path, u.query, u.fragment⟩
      else
        let netloc := if inNetloc then b.netloc else u.netloc
        if u.path.isEmpty then
          let query := if u.query.isEmpty then b.query else u.query
          urlunsplit ⟨u.scheme, netloc, b.path, query, u.fragment⟩
        else
          urlunsplit ⟨u.scheme, netloc, urljoinResolvedPath b.path u.path,
            u.query, u.fragment⟩

/-- Bytes kept verbatim by `urllib.parse.quote`: `always_safe` (letters,
digits, `_.-~`) plus the default `safe='/'`. -/
def quoteSafe (c : Char) : Bool :=
  asciiAlpha c || asciiDigit c || c = '_' || c = '.' || c = '-' || c = '~' || c = '/'

/-- Uppercase hex digit. -/
def hexDigitChar (n : Nat) : Char :=
  if n < 10 then Char.ofNat (48 + n) else Char.ofNat (55 + n)

/-- Percent-escape of one byte. -/
def pctByte (b : Nat) : List Char := ['%', hexDigitChar (b / 16 % 16), hexDigitChar (b % 16)]

/-- UTF-8 bytes of one character. -/
def utf8Bytes (c : Char) : List Nat :=
  let n := c.toNat
  if n < 0x80 then [n]
  else if n < 0x800 then [0xC0 + n / 0x40, 0x80 + n % 0x40]
  else if n < 0x10000 then
    [0xE0 + n / 0x1000, 0x80 + n / 0x40 % 0x40, 0x80 + n % 0x40]
  else
    [0xF0 + n / 0x40000, 0x80 + n / 0x1000 % 0x40, 0x80 + n / 0x40 % 0x40, 0x80 + n % 0x40]

/-- Embeds `urllib.parse.quote` with its default `safe='/'`: safe ASCII
bytes pass through, every other UTF-8 byte is percent-escaped (a safe byte is
exactly a safe character, and every byte of a multi-byte sequence is
unsafe, so working per character is equivalent to CPython's per-byte loop). -/
def pyQuote (s : List Char) : List Char :=
  (s.map (fun c => if quoteSafe c then [c] else ((utf8Bytes c).map pctByte).flatten)).flatten

/-- The parent-trimming step at lines 213-215: a parent URL not ending in
`/` is trimmed back to (and including) its last slash; `removeLastToken`'s
`sys.exit` is `none`. -/
def trimParent (url : List Char) : Option (List Char) :=
  if endsWithSlash url then some url else removeLastToken url

/-- The child locator computed for one link by the recursion loop of
`processContent` (lines 211-219): trim the parent, take the link's href,
percent-escape it, and resolve it with `urljoin`.  `none` covers the two
`sys.exit` paths (`removeLastToken` finding no slash past index 0, and
`parseHref` finding no href). -/
def crawlChildUrl (htmlUrl currHtmlLink : List Char) : Option (List Char) :=
  match trimParent htmlUrl with
  | none => none
  | some base =>
    match parseHref currHtmlLink with
    | none => none
    | some href => some (urljoin base (pyQuote href))

/-- Embeds `linkScanner_getMissingStateSpeedLimits` (lines 266-305) up to its
side effects: the outer `Option` is `sys.exit` (unparsable href, or a parent
with no usable slash in `mergeParentAndRelativeUrl`); the inner `Option` is
whether the scanner acted (`none` when the href does not end in `-sl.csv`);
the value is the output directory path it computes (and creates, before
handing it with the merged URL to the external processor). -/
def linkScanner_getMissingStateSpeedLimits
    (linkContent parentUrl stateOutputDir : List Char) (currTimestamp : Instant) :
    Option (Option (List Char)) :=
  match parseHref linkContent with
  | none => none
  | some relativeLink =>
    if !listEndsWith relativeLink (cl "-sl.csv") then some none
    else
      match mergeParentAndRelativeUrl parentUrl relativeLink with
      | none => none
      | some mergedUrl =>
        let urlTokens := splitChar '/' mergedUrl
        let stateName0 := urlTokens.getLastD []
        let stateName := pySliceTo ((stateName0.length : Int) - 7) stateName0
        let t1 := (prettyPrintTimestamp currTimestamp).map (fun c => if c = ' ' then '_' else c)
        let t2 := t1.filter (fun c => c ≠ '-')
        let t3 := t2.filter (fun c => c ≠ ':')
        let timestampDirName := pySliceTo ((t3.length : Int) - 4) t3
        some (some (stateOutputDir ++ '/' :: stateName ++ '/' :: timestampDirName
          ++ cl "/speed_limits"))

/-- The final `/`-delimited token of a URL (`url.split('/')` last element). -/
def lastSlashToken (url : List Char) : List Char := (splitChar '/' url).getLastD []

/-- The directory token derived from a run instant: format for display, turn
spaces into underscores, drop hyphens and colons (what remains of the
trailing `' UTC'` is `'_UTC'`, which the scanner slices off). -/
def instantDirToken (i : Instant) : List Char :=
  (((fmtDateTimeBase i).map (fun c => if c = ' ' then '_' else c)).filter
    (fun c => c ≠ '-')).filter (fun c => c ≠ ':')

/-- One pass of the recursion loop at lines 211-228, collecting the locators
handed to `getHtmlContent` for child fetches, in order.  The loop variable
`htmlUrl` is reassigned by the trim (line 215), so the trimmed value carries
over to later iterations; the trim is idempotent, so each link still joins
against the same base.  The `Bool` is false when the run died (`sys.exit`
from a trim, an href parse, a failed fetch, or a failure inside a child),
which stops all remaining processing.  `recurDescend` is the recursive
`processContent` call one level down. -/
def crawlLoop (recurDescend : List Char → List Char → List (List Char) × Bool)
    (pages : List Char → Option (List Char)) :
    List Char → List (List Char) → List (List Char) × Bool
  | _, [] => ([], true)
  | htmlUrl, currHtmlLink :: rest =>
    match trimParent htmlUrl with
    | none => ([], false)
    | some url2 =>
      match parseHref currHtmlLink with
      | none => ([], false)
      | some href =>
        let newUrl := urljoin url2 (pyQuote href)
        if listEndsWith newUrl (cl ".csv") then crawlLoop recurDescend pages url2 rest
        else
          match pages newUrl with
          | none => ([newUrl], false)
          | some newHtmlContent =>
            let child := recurDescend newUrl newHtmlContent
            if child.2 then
              let more := crawlLoop recurDescend pages url2 rest
              (newUrl :: child.1 ++ more.1, more.2)
            else
              (newUrl :: child.1, false)

/-- Embeds the recursive traversal of `processContent` (lines 195-228) with
`recurse=True`, as the ordered list of child locators fetched, with a fuel
bound standing in for the unbounded Python recursion (the code has no cycle
detection).  Scanners perform no fetches, so they do not appear.  A page
whose `getHtmlLinks` dies (`sys.exit` in `parseHref`) fetches nothing
below it. -/
def crawlRun : Nat → (List Char → Option (List Char)) → List Char → List Char →
    List (List Char) × Bool
  | 0, _, _, _ => ([], true)
  | n + 1, pages, htmlUrl, htmlContent =>
    match getHtmlLinks htmlContent with
    | none => ([], false)
    | some htmlLinks => crawlLoop (crawlRun n pages) pages htmlUrl htmlLinks

example : urljoin (cl "http://example.org/states/") (cl "tx-sl.csv")
    = cl "http://example.org/states/tx-sl.csv" := by decide

example : urljoin (cl "http://example.org/states/") (cl "../up.html")
    = cl "http://example.org/up.html" := by decide

example : pyQuote (cl "a b-sl.csv") = cl "a%20b-sl.csv" := by decide

example : crawlChildUrl (cl "http://example.org/states/index.html") (cl "<a href=\"tx-sl.csv\">TX</a>")
    = some (cl "http://example.org/states/tx-sl.csv") := by decide

example : parseHref (cl "<a href=\"tx-sl.csv\">TX</a>") = some (cl "tx-sl.csv") := by decide

example : findAnchors (cl "<p><a href=\"a.csv\">A</a> <a href=\"http://x/b\">B</a></p>")
    = [cl "<a href=\"a.csv\">A</a>", cl "<a href=\"http://x/b\">B</a>"] := by decide

example : getHtmlLinks (cl "<p><a href=\"a.csv\">A</a> <a href=\"http://x/b\">B</a></p>")
    = some [cl "<a href=\"a.csv\">A</a>"] := by decide

example : searchGenerated (cl "<i>Generated: 2016-07-20 20:34:36.844030 UTC</i>")
    = some (cl "2016-07-20 20:34:36.844030") := by decide

example : removeLastToken (cl "http://example.org/states/index.html")
    = some (cl "http://example.org/states/") := by decide

example : removeLastToken (cl "/abc") = none := by decide

example : mergeParentAndRelativeUrl (cl "http://example.org/states/") (cl "tx-sl.csv")
    = some (cl "http://example.org/states/tx-sl.csv") := by decide

example : writeTimestampEntryName instMicro = cl "2016-07-20 20:34:36.timestamp" := by decide

example : linkScanner_getMissingStateSpeedLimits (cl "<a href=\"tx-sl.csv\">TX</a>")
    (cl "http://example.org/states/") (cl "/out") instSec
    = some (some (cl "/out/tx/20160720_203436/speed_limits")) := by decide

/-- A root page carrying the spec's example generation instant and one
relative state speed-limit link. -/
def rootHtml : List Char :=
  cl "<html>Generated: 2016-07-20 20:34:36.844030 UTC <a href=\"tx-sl.csv\">TX</a></html>"

example : parseDataTimestampFromIndexPage rootHtml = .ok instMicro := by decide

/-- C1: the update gate `_needToDoRun` is claimed to be a total function that
returns true whenever the previous instant is absent or the current instant
is strictly newer.  The absent and `current <= previous` branches behave as
claimed, but the `current > previous` branch reads the undefined name
`currentTimestamp` (line 56; the parameter is `currTimestamp`), raising
`NameError` before its `return True`. -/
theorem gate_raises_instead_of_true :
    needToDoRun (some instSec) instMicro = .error .nameError ∧
    needToDoRun none instMicro = .ok true ∧
    needToDoRun (some instMicro) instMicro = .ok false := by decide

/-- C2: after a completed run records the observed root-page instant
`2016-07-20 20:34:36.844030 UTC`, re-running with the same root page is
claimed to make the gate return false.  Instead, the archive entry name
drops the microseconds, the read-back high-water mark is `20:34:36.000000`,
strictly below the re-observed `20:34:36.844030`, and the gate takes its
`current > previous` branch, which raises `NameError`; it does not return
false, so the second run is not suppressed as claimed. -/
theorem rerun_same_page_not_gated :
    parseDataTimestampFromIndexPage rootHtml = .ok instMicro ∧
    getPreviousDataTimestamp [writeTimestampEntryName instMicro] = .ok (some instSec) ∧
    instantLt instSec instMicro = true ∧
    needToDoRun (some instSec) instMicro = .error .nameError := by decide

/-- C3 counterexample: the appended timestamp-store entry is claimed to
encode the run's observed instant with fractional seconds included; but the
`strftime` format has no `%f`, so the instants `20:34:36.844030` and
`20:34:36.000000` produce the same entry name — the name cannot encode the
fractional part. -/
theorem entry_name_drops_fraction :
    writeTimestampEntryName instMicro = cl "2016-07-20 20:34:36.timestamp" ∧
    writeTimestampEntryName instMicro = writeTimestampEntryName instSec ∧
    instMicro ≠ instSec := by decide

/-- C4: parsing, formatting for display, then re-parsing is claimed to yield
the same Instant, with the inner re-parse succeeding.  In fact the display
format appends `' UTC'`, `dateutil` parses that into a tz-aware datetime,
and `pytz.utc.localize` then raises `ValueError` (re-raised by the handler),
so the re-parse fails for every displayed instant — here shown at
`2016-07-20 20:34:36`. -/
theorem display_roundtrip_parse_fails :
    parseTimestamp (cl "2016-07-20 20:34:36") = .ok instSec ∧
    prettyPrintTimestamp instSec = cl "2016-07-20 20:34:36 UTC" ∧
    parseTimestamp (prettyPrintTimestamp instSec) = .error .valueError := by decide

/-- C5: an entry whose name cannot be parsed is claimed to be skipped with a
warning.  Instead `parseTimestamp` raises `ValueError` (its `return None` is
unreachable, making the caller's skip branch dead code), so one bad entry
aborts the whole read even though a valid newer entry is present. -/
theorem unparsable_entry_aborts_run :
    getPreviousDataTimestamp [cl "notadate.timestamp", cl "2016-07-20 20:34:36.timestamp"]
      = .error .valueError := by decide

/-- C7: the crawl engine's child locator is computed by trimming a parent
that does not end in `/` back to its last slash, percent-escaping the href,
and resolving with standard relative-URL semantics (`urljoin`); joining
`http://example.org/states/` or `http://example.org/states/index.html` with
href `tx-sl.csv` both give `http://example.org/states/tx-sl.csv`. -/
theorem crawl_join_rule :
    (∀ htmlUrl currHtmlLink, crawlChildUrl htmlUrl currHtmlLink =
      (trimParent htmlUrl).bind fun base =>
        (parseHref currHtmlLink).map fun href => urljoin base (pyQuote href)) ∧
    crawlChildUrl (cl "http://example.org/states/") (cl "<a href=\"tx-sl.csv\">TX</a>")
      = some (cl "http://example.org/states/tx-sl.csv") ∧
    crawlChildUrl (cl "http://example.org/states/index.html") (cl "<a href=\"tx-sl.csv\">TX</a>")
      = some (cl "http://example.org/states/tx-sl.csv") := by
  refine ⟨fun u l => ?_, by decide, by decide⟩
  unfold crawlChildUrl
  cases trimParent u <;> cases parseHref l <;> rfl

/-- Field ranges every real Python `datetime` satisfies (plus the year bound
`strftime('%Y')` needs for a four-digit rendering). -/
abbrev instantWF (i : Instant) : Prop :=
  i.year < 10000 ∧ 1 ≤ i.month ∧ i.month ≤ 12 ∧ 1 ≤ i.day ∧ i.day ≤ 31 ∧
    i.hour ≤ 23 ∧ i.minute ≤ 59 ∧ i.second ≤ 59

/-- The instant with its sub-second part discarded, which is all the archive
file-name format can carry. -/
def truncateToSecond (i : Instant) : Instant :=
  ⟨i.year, i.month, i.day, i.hour, i.minute, i.second, 0⟩

theorem digitVal_digitChar (n : Nat) : digitVal (digitChar n) = some (n % 10) := by
  have h : n % 10 < 10 := Nat.mod_lt _ (by norm_num)
  unfold digitChar
  generalize n % 10 = m at h ⊢
  interval_cases m <;> decide

theorem parse2_pad2 (n : Nat) (r : List Char) (h : n < 100) :
    parse2 (pad2 n ++ r) = some (n, r) := by
  simp only [pad2, List.cons_append, List.nil_append, parse2, digitVal_digitChar,
    Option.some.injEq, Prod.mk.injEq]
  exact ⟨by omega, trivial⟩

theorem parse4_pad4 (n : Nat) (r : List Char) (h : n < 10000) :
    parse4 (pad4 n ++ r) = some (n, r) := by
  simp only [pad4, List.cons_append, List.nil_append, parse4, digitVal_digitChar,
    Option.some.injEq, Prod.mk.injEq]
  exact ⟨by omega, trivial⟩

theorem expectChar_cons (c : Char) (r : List Char) : expectChar c (c :: r) = some r := by
  simp [expectChar]

/-- Formatting with the shared `'%Y-%m-%d %H:%M:%S'` base and re-parsing
recovers the fields, with the microsecond forced to zero and no timezone. -/
theorem dateutilParse_fmtBase (i : Instant) (h : instantWF i) :
    dateutilParse (fmtDateTimeBase i) = some (truncateToSecond i, false) := by
  obtain ⟨h1, h2, h3, h4, h5, h6, h7, h8⟩ := h
  have e6 : parse2 (pad2 i.second) = some (i.second, []) := by
    have e := parse2_pad2 i.second [] (by omega)
    simpa using e
  have hcond : (decide (1 ≤ i.month) && decide (i.month ≤ 12) && decide (1 ≤ i.day)
      && decide (i.day ≤ 31) && decide (i.hour ≤ 23) && decide (i.minute ≤ 59)
      && decide (i.second ≤ 59)) = true := by
    simp only [Bool.and_eq_true, decide_eq_true_eq]
    exact ⟨⟨⟨⟨⟨⟨h2, h3⟩, h4⟩, h5⟩, h6⟩, h7⟩, h8⟩
  simp only [fmtDateTimeBase, dateutilParse, parse4_pad4 _ _ h1,
    parse2_pad2 i.month _ (by omega : i.month < 100),
    parse2_pad2 i.day _ (by omega : i.day < 100),
    parse2_pad2 i.hour _ (by omega : i.hour < 100),
    parse2_pad2 i.minute _ (by omega : i.minute < 100),
    e6, expectChar_cons, dateutilParseTail, hcond, truncateToSecond]
  simp

theorem fmtDateTimeBase_length (i : Instant) : (fmtDateTimeBase i).length = 19 := by
  simp [fmtDateTimeBase, pad4, pad2]

theorem listEndsWith_append (a s : List Char) : listEndsWith (a ++ s) s = true := by
  simp [listEndsWith, List.isSuffixOf, List.isPrefixOf_iff_prefix]

/-- C3 (amended): reading the timestamp store back after a run appended its
entry yields the observed root-page instant truncated to whole seconds: the
entry name is the instant formatted without `%f` plus the `.timestamp`
suffix, and `getPreviousDataTimestamp` parses exactly that back. -/
theorem entry_encodes_truncated_instant (i : Instant) (h : instantWF i) :
    getPreviousDataTimestamp [writeTimestampEntryName i] = .ok (some (truncateToSecond i)) := by
  have hsup : pySliceTo (((writeTimestampEntryName i).length : Int) - 10)
      (writeTimestampEntryName i) = fmtDateTimeBase i := by
    have hlen : (writeTimestampEntryName i).length = 29 := by
      simp [writeTimestampEntryName, fmtDateTimeBase_length, cl]
    rw [hlen]
    have h19 : (((29 : Nat) : Int) - 10) = (19 : Int) := by norm_num
    rw [h19, pySliceTo, if_pos (by norm_num : (0 : Int) ≤ 19)]
    rw [writeTimestampEntryName]
    exact List.take_left' (fmtDateTimeBase_length i)
  have hparse : parseTimestamp (fmtDateTimeBase i) = .ok (truncateToSecond i) := by
    unfold parseTimestamp
    rw [dateutilParse_fmtBase i h]
  have hends : listEndsWith (writeTimestampEntryName i) (cl ".timestamp") = true := by
    rw [writeTimestampEntryName]
    exact listEndsWith_append _ _
  simp only [getPreviousDataTimestamp, collectTimestamps]
  rw [hsup, hparse, hends]
  simp [pyMaxInstant, collectTimestamps]

/-- Witness for the amended C3 at the spec's concrete instant
`2016-07-20 20:34:36.844030 UTC`: the appended entry reads back as
`2016-07-20 20:34:36.000000 UTC`. -/
theorem entry_encodes_truncated_instant_witness :
    instantWF instMicro ∧
    getPreviousDataTimestamp [writeTimestampEntryName instMicro]
      = .ok (some (truncateToSecond instMicro)) :=
  ⟨by decide, entry_encodes_truncated_instant instMicro (by decide)⟩

/-- The loop of `getHtmlLinks`, when it does not die, returns exactly the
anchors whose href parses and is not absolute, in document order. -/
theorem goLinks_eq_filter (anchors : List (List Char)) :
    ∀ links, goLinks anchors = some links → links = anchors.filter isRelativeAnchor := by
  induction anchors with
  | nil =>
    intro links h
    simp only [goLinks, Option.some.injEq] at h
    simp [← h]
  | cons l rest ih =>
    intro links h
    rw [goLinks] at h
    split at h
    next => exact absurd h (by simp)
    next hp h1 =>
      split at h
      next => exact absurd h (by simp)
      next acc h2 =>
        have hacc := ih acc h2
        have hrel : isRelativeAnchor l
            = (!listStartsWith hp (cl "http://") && !listStartsWith hp (cl "https://")) := by
          simp [isRelativeAnchor, h1]
        rw [List.filter_cons, hrel]
        split at h
        next hc =>
          rw [if_pos hc]
          simp only [Option.some.injEq] at h
          simp [← h, hacc]
        next hc =>
          rw [if_neg hc]
          simp only [Option.some.injEq] at h
          simp [← h, hacc]

/-- C9: when `extractLinks` (`getHtmlLinks`) returns at all, it returns
exactly the anchors of the page whose href parses and does not begin with
`http://` or `https://`, in document order; in particular every returned
link's href avoids both absolute prefixes. -/
theorem extract_links_only_relative (htmlContent : List Char) (links : List (List Char))
    (h : getHtmlLinks htmlContent = some links) :
    links = (findAnchors htmlContent).filter isRelativeAnchor ∧
    ∀ l ∈ links, ∃ href, parseHref l = some href ∧
      listStartsWith href (cl "http://") = false ∧
      listStartsWith href (cl "https://") = false := by
  have h1 := goLinks_eq_filter (findAnchors htmlContent) links h
  refine ⟨h1, ?_⟩
  intro l hl
  have hmem : isRelativeAnchor l = true := by
    rw [h1] at hl
    exact (List.mem_filter.mp hl).2
  unfold isRelativeAnchor at hmem
  split at hmem
  next href h2 =>
    rw [Bool.and_eq_true] at hmem
    refine ⟨href, h2, ?_, ?_⟩
    · simpa using hmem.1
    · simpa using hmem.2
  next => exact absurd hmem (by simp)

/-- Witness for C9 at a concrete page holding one relative and one absolute
link: only the relative anchor is returned, and its href is relative. -/
theorem extract_links_only_relative_witness :
    [cl "<a href=\"a.csv\">A</a>"]
      = (findAnchors (cl "<p><a href=\"a.csv\">A</a> <a href=\"http://x/b\">B</a></p>")).filter
          isRelativeAnchor ∧
    ∀ l ∈ [cl "<a href=\"a.csv\">A</a>"], ∃ href, parseHref l = some href ∧
      listStartsWith href (cl "http://") = false ∧
      listStartsWith href (cl "https://") = false :=
  extract_links_only_relative
    (cl "<p><a href=\"a.csv\">A</a> <a href=\"http://x/b\">B</a></p>")
    [cl "<a href=\"a.csv\">A</a>"] (by decide)

/-- The recursion loop never records a fetch of a `.csv` locator, provided
the descent it delegates to never does. -/
theorem crawlLoop_no_csv (recurDescend : List Char → List Char → List (List Char) × Bool)
    (hrec : ∀ u c, ((recurDescend u c).1.all fun v => !listEndsWith v (cl ".csv")) = true)
    (pages : List Char → Option (List Char)) :
    ∀ url links, ((crawlLoop recurDescend pages url links).1.all
      fun v => !listEndsWith v (cl ".csv")) = true := by
  intro url links
  induction links generalizing url with
  | nil => simp [crawlLoop]
  | cons l rest ih =>
    rw [crawlLoop]
    cases trimParent url with
    | none => simp
    | some url2 =>
      cases parseHref l with
      | none => simp
      | some href =>
        simp only []
        by_cases hcsv : listEndsWith (urljoin url2 (pyQuote href)) (cl ".csv") = true
        · rw [if_pos hcsv]
          exact ih url2
        · rw [if_neg hcsv]
          have hok : (!listEndsWith (urljoin url2 (pyQuote href)) (cl ".csv")) = true := by
            simp [eq_false_of_ne_true hcsv]
          cases pages (urljoin url2 (pyQuote href)) with
          | none => simp [hok]
          | some newHtmlContent =>
            simp only []
            by_cases hchild : (recurDescend (urljoin url2 (pyQuote href)) newHtmlContent).2 = true
            · rw [if_pos hchild]
              simp [hok, hrec, ih url2]
            · rw [if_neg hchild]
              simp [hok, hrec]

/-- C8: during recursive traversal the crawl engine never hands a locator
ending in `.csv` to the page fetcher — resolved `.csv` links are skipped
(`continue`) before the `getHtmlContent` call, at every depth, for every
page map and every fuel bound. -/
theorem crawl_never_fetches_csv (fuel : Nat) (pages : List Char → Option (List Char))
    (htmlUrl htmlContent : List Char) :
    ((crawlRun fuel pages htmlUrl htmlContent).1.all
      fun v => !listEndsWith v (cl ".csv")) = true := by
  induction fuel generalizing htmlUrl htmlContent with
  | zero => simp [crawlRun]
  | succ n ih =>
    rw [crawlRun]
    cases getHtmlLinks htmlContent with
    | none => simp
    | some htmlLinks =>
      exact crawlLoop_no_csv (crawlRun n pages) (fun u c => ih u c) pages htmlUrl htmlLinks

/-- The scanner's replace/replace/replace/slice chain on the displayed
instant equals `instantDirToken`: what remains of the display's `' UTC'`
suffix after the transformations is exactly the four characters `_UTC` that
the final slice removes. -/
theorem instantDirToken_slice (i : Instant) :
    pySliceTo ((((((prettyPrintTimestamp i).map (fun c => if c = ' ' then '_' else c)).filter
        (fun c => c ≠ '-')).filter (fun c => c ≠ ':')).length : Int) - 4)
      ((((prettyPrintTimestamp i).map (fun c => if c = ' ' then '_' else c)).filter
        (fun c => c ≠ '-')).filter (fun c => c ≠ ':')) = instantDirToken i := by
  have hsplit : (((prettyPrintTimestamp i).map (fun c => if c = ' ' then '_' else c)).filter
      (fun c => c ≠ '-')).filter (fun c => c ≠ ':') = instantDirToken i ++ cl "_UTC" := by
    simp only [prettyPrintTimestamp, List.map_append, List.filter_append, instantDirToken]
    congr 1
  rw [hsplit]
  have hlen4 : (cl "_UTC").length = 4 := by decide
  have hlen : (((instantDirToken i ++ cl "_UTC").length : Nat) : Int) - 4
      = (((instantDirToken i).length : Nat) : Int) := by
    rw [List.length_append, hlen4]
    push_cast
    omega
  rw [hlen, pySliceTo, if_pos (Int.natCast_nonneg _)]
  rw [Int.toNat_natCast]
  exact List.take_left _ _

/-- C6: for every link whose href ends in `-sl.csv`, the scanner's output
directory is `<outputRoot>/<stateId>/<formattedInstant>/speed_limits`, where
the state identifier is the final `/`-token of the resolved (merged) locator
with the `-sl.csv` tail sliced off and the instant token applies the
space/hyphen/colon cleanup with the trailing `_UTC` dropped; concretely the
resolved locator `http://example.org/states/tx-sl.csv` yields state `tx` and
the instant `2016-07-20 20:34:36 UTC` yields `20160720_203436`. -/
theorem speed_limit_output_dir (linkContent parentUrl stateOutputDir : List Char) (i : Instant)
    (rel merged : List Char)
    (hhref : parseHref linkContent = some rel)
    (hsl : listEndsWith rel (cl "-sl.csv") = true)
    (hmerge : mergeParentAndRelativeUrl parentUrl rel = some merged) :
    linkScanner_getMissingStateSpeedLimits linkContent parentUrl stateOutputDir i =
      some (some (stateOutputDir ++ '/' :: pySliceTo (((lastSlashToken merged).length : Int) - 7)
        (lastSlashToken merged) ++ '/' :: instantDirToken i ++ cl "/speed_limits")) ∧
    pySliceTo (((lastSlashToken (cl "http://example.org/states/tx-sl.csv")).length : Int) - 7)
      (lastSlashToken (cl "http://example.org/states/tx-sl.csv")) = cl "tx" ∧
    instantDirToken instSec = cl "20160720_203436" := by
  refine ⟨?_, by decide, by decide⟩
  simp only [linkScanner_getMissingStateSpeedLimits, hhref, hsl, Bool.not_true, hmerge,
    lastSlashToken, instantDirToken_slice i]
  rw [if_neg (by decide : ¬false = true)]

/-- Witness for C6 at the spec's scenario: href `tx-sl.csv` under parent
`http://example.org/states/` at instant `2016-07-20 20:34:36 UTC` computes
the output directory `/out/tx/20160720_203436/speed_limits`. -/
theorem speed_limit_output_dir_witness :
    linkScanner_getMissingStateSpeedLimits (cl "<a href=\"tx-sl.csv\">TX</a>")
      (cl "http://example.org/states/") (cl "/out") instSec
      = some (some (cl "/out/tx/20160720_203436/speed_limits")) := by
  have h := speed_limit_output_dir (cl "<a href=\"tx-sl.csv\">TX</a>")
    (cl "http://example.org/states/") (cl "/out") instSec (cl "tx-sl.csv")
    (cl "http://example.org/states/tx-sl.csv") (by decide) (by decide) (by decide)
  rw [h.1]
  decide

/-- The `always_safe` byte set of `urllib.parse.quote` (without the default
`safe='/'` addition): letters, digits, `_`, `.`, `-`, `~`. -/
def alwaysSafe (c : Char) : Bool :=
  asciiAlpha c || asciiDigit c || c = '_' || c = '.' || c = '-' || c = '~'

/-- The base path under a slash-terminated URL, as the flattened
`<dir>/<dir>/.../` run of its directory segments. -/
def dirsPath (dirs : List (List Char)) : List Char :=
  (dirs.map (fun d => d ++ ['/'])).flatten

/-- A character free of the path/query/fragment delimiters, of the brackets
that trigger CPython's IPv6 validation, and of the control characters
`urlsplit` strips. -/
def urlChar (c : Char) : Bool :=
  !(c = '/' || c = '?' || c = '#' || c = '[' || c = ']' || c = '\t' || c = '\r' || c = '\n')

/-- A well-behaved network-location component: nonempty, delimiter-free. -/
abbrev cleanNetloc (n : List Char) : Prop :=
  n ≠ [] ∧ ∀ c ∈ n, urlChar c = true

/-- A well-behaved path segment: nonempty, not a dot segment,
delimiter-free. -/
abbrev cleanDir (d : List Char) : Prop :=
  d ≠ [] ∧ d ≠ cl "." ∧ d ≠ cl ".." ∧ ∀ c ∈ d, urlChar c = true

theorem urlChar_spec {c : Char} (h : urlChar c = true) :
    c ≠ '/' ∧ c ≠ '?' ∧ c ≠ '#' ∧ c ≠ '[' ∧ c ≠ ']' ∧ c ≠ '\t' ∧ c ≠ '\r' ∧ c ≠ '\n' := by
  simp only [urlChar, Bool.not_eq_true', Bool.or_eq_false_iff, decide_eq_false_iff_not] at h
  tauto

/-- A href that is a plain relative file name: nonempty, not a dot segment,
all characters in `quote`'s unreserved set (hence no `/`, `:`, `?`, `#`,
`%`, space, or control characters). -/
abbrev plainHref (h : List Char) : Prop :=
  h ≠ [] ∧ h ≠ cl "." ∧ h ≠ cl ".." ∧ ∀ c ∈ h, alwaysSafe c = true

theorem alwaysSafe_ne {c x : Char} (hc : alwaysSafe c = true) (hx : alwaysSafe x = false) :
    c ≠ x := by
  intro he
  rw [he, hx] at hc
  cases hc

theorem pyQuote_plain (h : List Char) (hs : ∀ c ∈ h, alwaysSafe c = true) : pyQuote h = h := by
  induction h with
  | nil => rfl
  | cons c t ih =>
    have hc : quoteSafe c = true := by
      have h1 := hs c (by simp)
      simp only [alwaysSafe, quoteSafe, Bool.or_eq_true] at h1 ⊢
      tauto
    have h2 := ih (fun x hx => hs x (List.mem_cons_of_mem c hx))
    simp only [pyQuote, List.map_cons, List.flatten_cons, hc, if_true] at h2 ⊢
    rw [h2]
    rfl

theorem splitAtFirst_of_not_mem (p : Char → Bool) (l : List Char)
    (h : ∀ c ∈ l, p c = false) : splitAtFirst p l = none := by
  induction l with
  | nil => rfl
  | cons c t ih =>
    rw [splitAtFirst, if_neg (by simp [h c (by simp)])]
    rw [ih (fun x hx => h x (List.mem_cons_of_mem c hx))]
    rfl

theorem splitAtFirst_append (p : Char → Bool) (a : List Char) (x : Char) (b : List Char)
    (ha : ∀ c ∈ a, p c = false) (hx : p x = true) :
    splitAtFirst p (a ++ x :: b) = some (a, b) := by
  induction a with
  | nil => simp [splitAtFirst, hx]
  | cons c t ih =>
    rw [List.cons_append, splitAtFirst, if_neg (by simp [ha c (by simp)])]
    rw [ih (fun y hy => ha y (List.mem_cons_of_mem c hy))]
    rfl

theorem takeWhile_append_of_all (p : Char → Bool) (a b : List Char)
    (ha : ∀ c ∈ a, p c = true) : (a ++ b).takeWhile p = a ++ b.takeWhile p := by
  induction a with
  | nil => rfl
  | cons c t ih =>
    rw [List.cons_append, List.takeWhile_cons, if_pos (ha c (by simp))]
    rw [ih (fun x hx => ha x (List.mem_cons_of_mem c hx))]
    rfl

theorem dropWhile_append_of_all (p : Char → Bool) (a b : List Char)
    (ha : ∀ c ∈ a, p c = true) : (a ++ b).dropWhile p = b.dropWhile p := by
  induction a with
  | nil => rfl
  | cons c t ih =>
    rw [List.cons_append, List.dropWhile_cons, if_pos (ha c (by simp))]
    exact ih (fun x hx => ha x (List.mem_cons_of_mem c hx))

theorem splitChar_ne_nil (sep : Char) (l : List Char) : splitChar sep l ≠ [] := by
  cases l with
  | nil => simp [splitChar]
  | cons c t =>
    rw [splitChar]
    by_cases h : c = sep
    · simp [h]
    · rw [if_neg h]
      cases splitChar sep t <;> simp

theorem splitChar_cons_sep (sep : Char) (rest : List Char) :
    splitChar sep (sep :: rest) = [] :: splitChar sep rest := by
  rw [splitChar, if_pos rfl]

theorem splitChar_append_seg (sep : Char) (d rest : List Char)
    (hd : ∀ c ∈ d, c ≠ sep) :
    splitChar sep (d ++ sep :: rest) = d :: splitChar sep rest := by
  induction d with
  | nil => simp [splitChar_cons_sep]
  | cons c t ih =>
    rw [List.cons_append, splitChar, if_neg (hd c (by simp))]
    rw [ih (fun x hx => hd x (List.mem_cons_of_mem c hx))]

theorem splitChar_of_not_mem (sep : Char) (l : List Char) (h : ∀ c ∈ l, c ≠ sep) :
    splitChar sep l = [l] := by
  induction l with
  | nil => rfl
  | cons c t ih =>
    rw [splitChar, if_neg (h c (by simp))]
    rw [ih (fun x hx => h x (List.mem_cons_of_mem c hx))]

theorem splitChar_dirsPath (dirs : List (List Char))
    (h : ∀ d ∈ dirs, ∀ c ∈ d, c ≠ '/') :
    splitChar '/' (dirsPath dirs) = dirs ++ [[]] := by
  induction dirs with
  | nil => rfl
  | cons d rest ih =>
    have hd : ∀ c ∈ d, c ≠ '/' := h d (by simp)
    rw [dirsPath, List.map_cons, List.flatten_cons]
    rw [List.append_assoc, List.singleton_append]
    rw [splitChar_append_seg '/' d _ hd]
    rw [show (rest.map (fun d => d ++ ['/'])).flatten = dirsPath rest from rfl]
    rw [ih (fun x hx => h x (List.mem_cons_of_mem d hx))]
    rfl

theorem joinSlash_cons_cons (x y : List Char) (rest : List (List Char)) :
    joinSlash (x :: y :: rest) = x ++ '/' :: joinSlash (y :: rest) := by
  rfl

theorem joinSlash_append_singleton (dirs : List (List Char)) (h : List Char) :
    joinSlash (dirs ++ [h]) = dirsPath dirs ++ h := by
  induction dirs with
  | nil => rfl
  | cons d rest ih =>
    cases hr : rest ++ [h] with
    | nil => exact absurd hr (by simp)
    | cons z zs =>
      rw [List.cons_append, hr, joinSlash_cons_cons, ← hr, ih]
      simp [dirsPath, List.append_assoc]

theorem resolveSegs_no_dots (segs : List (List Char))
    (h : ∀ s ∈ segs, s ≠ cl "." ∧ s ≠ cl "..") :
    ∀ acc, resolveSegs acc segs = acc ++ segs := by
  induction segs with
  | nil => intro acc; simp [resolveSegs]
  | cons s rest ih =>
    intro acc
    have hs := h s (by simp)
    rw [resolveSegs, if_neg (by simpa using hs.2), if_neg (by simpa using hs.1)]
    rw [ih (fun x hx => h x (List.mem_cons_of_mem s hx))]
    simp

theorem pyMidFilter_shape (x y : List Char) (mid : List (List Char)) :
    pyMidFilter (x :: (mid ++ [y])) = x :: mid.filter (fun s => !s.isEmpty) ++ [y] := by
  cases mid with
  | nil => rfl
  | cons m ms =>
    rw [List.cons_append, pyMidFilter]
    rw [show m :: (ms ++ [y]) = (m :: ms) ++ [y] from rfl]
    rw [List.dropLast_concat, List.getLastD_concat]

theorem mem_dirsPath {c : Char} {dirs : List (List Char)} (h : c ∈ dirsPath dirs) :
    c = '/' ∨ ∃ d ∈ dirs, c ∈ d := by
  rw [dirsPath, List.mem_flatten] at h
  obtain ⟨s, hs, hcs⟩ := h
  rw [List.mem_map] at hs
  obtain ⟨d, hd, rfl⟩ := hs
  rcases List.mem_append.mp hcs with h1 | h1
  · exact Or.inr ⟨d, hd, h1⟩
  · simp only [List.mem_singleton] at h1
    exact Or.inl h1

theorem stripControlBytes_of_clean (l : List Char)
    (h : ∀ c ∈ l, c ≠ '\t' ∧ c ≠ '\r' ∧ c ≠ '\n') : stripControlBytes l = l := by
  rw [stripControlBytes, List.filter_eq_self]
  intro c hc
  obtain ⟨h1, h2, h3⟩ := h c hc
  simp [h1, h2, h3]

/-- The characters of the well-behaved base URL avoid the stripped control
characters, so `urlsplit` leaves it intact. -/
theorem stripControlBytes_base (n : List Char) (dirs : List (List Char))
    (hn : cleanNetloc n) (hdirs : ∀ d ∈ dirs, cleanDir d) :
    stripControlBytes (cl "http://" ++ (n ++ ('/' :: dirsPath dirs)))
      = cl "http://" ++ (n ++ ('/' :: dirsPath dirs)) := by
  apply stripControlBytes_of_clean
  have hlit : ∀ c ∈ cl "http://", c ≠ '\t' ∧ c ≠ '\r' ∧ c ≠ '\n' := by decide
  intro c hc
  rcases List.mem_append.mp hc with h1 | h1
  · exact hlit c h1
  · rcases List.mem_append.mp h1 with h2 | h2
    · have hs := urlChar_spec (hn.2 c h2)
      exact ⟨hs.2.2.2.2.2.1, hs.2.2.2.2.2.2.1, hs.2.2.2.2.2.2.2⟩
    · rcases List.mem_cons.mp h2 with rfl | h3
      · decide
      · rcases mem_dirsPath h3 with rfl | ⟨d, hd, hcd⟩
        · decide
        · have hs := urlChar_spec ((hdirs d hd).2.2.2 c hcd)
          exact ⟨hs.2.2.2.2.2.1, hs.2.2.2.2.2.2.1, hs.2.2.2.2.2.2.2⟩

/-- Splitting the well-behaved slash-terminated base URL: scheme `http`,
netloc `n`, path `/<dirs...>/`, no query, no fragment. -/
theorem urlsplit_base (n : List Char) (dirs : List (List Char))
    (hn : cleanNetloc n) (hdirs : ∀ d ∈ dirs, cleanDir d) :
    urlsplit (cl "http://" ++ (n ++ ('/' :: dirsPath dirs))) []
      = ⟨cl "http", n, '/' :: dirsPath dirs, [], []⟩ := by
  have hpath : ∀ c ∈ '/' :: dirsPath dirs, c ≠ '?' ∧ c ≠ '#' := by
    intro c hc
    rcases List.mem_cons.mp hc with rfl | h3
    · decide
    · rcases mem_dirsPath h3 with rfl | ⟨d, hd, hcd⟩
      · decide
      · have hs := urlChar_spec ((hdirs d hd).2.2.2 c hcd)
        exact ⟨hs.2.1, hs.2.2.1⟩
  have hshape : cl "http://" ++ (n ++ ('/' :: dirsPath dirs))
      = cl "http" ++ ':' :: ('/' :: '/' :: (n ++ ('/' :: dirsPath dirs))) := rfl
  rw [urlsplit, stripControlBytes_base n dirs hn hdirs, hshape]
  rw [splitAtFirst_append _ (cl "http") ':' _ (by decide) (by decide)]
  simp only
  rw [if_pos (by decide)]
  have hlower : (cl "http").map asciiLower = cl "http" := by decide
  rw [hlower]
  simp only [List.take, List.drop]
  rw [if_pos (by decide : (['/', '/'] : List Char) = cl "//")]
  have hnw : ∀ c ∈ n, (fun c => !netlocEnd c) c = true := by
    intro c hc
    have hs := urlChar_spec (hn.2 c hc)
    simp [netlocEnd, hs.1, hs.2.1, hs.2.2.1]
  rw [takeWhile_append_of_all _ n _ hnw, dropWhile_append_of_all _ n _ hnw]
  rw [List.takeWhile_cons, if_neg (by decide), List.dropWhile_cons, if_neg (by decide)]
  rw [List.append_nil]
  rw [splitAtFirst_of_not_mem _ _
    (fun c hc => decide_eq_false (hpath c hc).2)]
  simp only
  rw [splitAtFirst_of_not_mem _ _
    (fun c hc => decide_eq_false (hpath c hc).1)]

/-- Splitting a plain relative href with the inherited default scheme: no
netloc, the href itself as the path, no query, no fragment. -/
theorem urlsplit_plain_href (h : List Char) (hh : plainHref h) :
    urlsplit h (cl "http") = ⟨cl "http", [], h, [], []⟩ := by
  obtain ⟨hne, hd1, hd2, hsafe⟩ := hh
  have hstrip : stripControlBytes h = h := by
    apply stripControlBytes_of_clean
    intro c hc
    have hs := hsafe c hc
    exact ⟨alwaysSafe_ne hs (by decide), alwaysSafe_ne hs (by decide),
      alwaysSafe_ne hs (by decide)⟩
  rw [urlsplit, hstrip]
  rw [splitAtFirst_of_not_mem _ _
    (fun c hc => decide_eq_false (alwaysSafe_ne (hsafe c hc) (by decide)))]
  simp only
  have htake : h.take 2 ≠ cl "//" := by
    intro he
    have hmem : '/' ∈ h.take 2 := by rw [he]; decide
    exact absurd (hsafe '/' (List.take_subset _ _ hmem)) (by decide)
  rw [if_neg htake]
  rw [splitAtFirst_of_not_mem _ _
    (fun c hc => decide_eq_false (alwaysSafe_ne (hsafe c hc) (by decide)))]
  simp only
  rw [splitAtFirst_of_not_mem _ _
    (fun c hc => decide_eq_false (alwaysSafe_ne (hsafe c hc) (by decide)))]

/-- A plain href cannot begin with a slash. -/
theorem plain_href_not_abs (href : List Char) (hne : href ≠ [])
    (hsafe : ∀ c ∈ href, alwaysSafe c = true) :
    listStartsWith href (cl "/") = false := by
  cases href with
  | nil => exact absurd rfl hne
  | cons c t =>
    have hcc : c ≠ '/' := alwaysSafe_ne (hsafe c (by simp)) (by decide)
    have hc : ('/' == c) = false := beq_eq_false_iff_ne.mpr (Ne.symm hcc)
    show (['/'] : List Char).isPrefixOf (c :: t) = false
    simp [List.isPrefixOf, hc]

/-- Segment computation on the well-behaved inputs: the base's directory
segments survive the interior filter and the href is appended as the final
segment. -/
theorem urljoinSegments_plain (dirs : List (List Char)) (href : List Char)
    (hdirs : ∀ d ∈ dirs, cleanDir d) (hne : href ≠ [])
    (hsafe : ∀ c ∈ href, alwaysSafe c = true) :
    urljoinSegments ('/' :: dirsPath dirs) href = ([] :: dirs) ++ [href] := by
  have hdirsSlash : ∀ d ∈ dirs, ∀ c ∈ d, c ≠ '/' :=
    fun d hd c hc => (urlChar_spec ((hdirs d hd).2.2.2 c hc)).1
  rw [urljoinSegments, splitChar_cons_sep, splitChar_dirsPath dirs hdirsSlash]
  have hlast0 : (([] : List Char) :: (dirs ++ [[]])).getLastD [] = [] := by
    rw [show (([] : List Char) :: (dirs ++ [[]])) = (([] :: dirs) ++ [[]]) by simp]
    exact List.getLastD_concat _ _ _
  rw [if_neg (show ¬(([] : List Char) :: (dirs ++ [[]])).getLastD [] ≠ [] by
    rw [hlast0]
    simp)]
  rw [if_neg (show ¬listStartsWith href (cl "/") = true by
    simp [plain_href_not_abs href hne hsafe])]
  rw [splitChar_of_not_mem '/' href (fun c hc => alwaysSafe_ne (hsafe c hc) (by decide))]
  rw [List.cons_append, pyMidFilter_shape]
  rw [List.filter_append]
  rw [List.filter_eq_self.mpr (fun d hd => by
    cases hdd : d with
    | nil => exact absurd hdd (hdirs d hd).1
    | cons z zs => rfl)]
  simp

/-- Path resolution on the well-behaved inputs is concatenation under the
leading slash. -/
theorem urljoinResolvedPath_plain (dirs : List (List Char)) (href : List Char)
    (hdirs : ∀ d ∈ dirs, cleanDir d) (hh : plainHref href) :
    urljoinResolvedPath ('/' :: dirsPath dirs) href = '/' :: (dirsPath dirs ++ href) := by
  obtain ⟨hne, hd1, hd2, hsafe⟩ := hh
  rw [urljoinResolvedPath, urljoinSegments_plain dirs href hdirs hne hsafe]
  have hlasth : ((([] : List Char) :: dirs) ++ [href]).getLastD [] = href :=
    List.getLastD_concat _ _ _
  have hnodots : ∀ s ∈ ([] :: dirs) ++ [href], s ≠ cl "." ∧ s ≠ cl ".." := by
    intro s hs
    rcases List.mem_append.mp hs with h1 | h1
    · rcases List.mem_cons.mp h1 with rfl | h2
      · exact ⟨by decide, by decide⟩
      · exact ⟨(hdirs s h2).2.1, (hdirs s h2).2.2.1⟩
    · simp only [List.mem_singleton] at h1
      subst h1
      exact ⟨hd1, hd2⟩
  rw [resolveSegs_no_dots _ hnodots []]
  rw [hlasth]
  rw [if_neg (show ¬(decide (href = cl ".") || decide (href = cl "..")) = true by
    rw [decide_eq_false hd1, decide_eq_false hd2]
    simp)]
  rw [List.nil_append]
  have hcons : ∃ z zs, dirs ++ [href] = z :: zs := by
    cases dirs <;> exact ⟨_, _, rfl⟩
  obtain ⟨z, zs, hzz⟩ := hcons
  rw [List.cons_append, hzz, joinSlash_cons_cons, ← hzz, joinSlash_append_singleton]
  rw [List.nil_append]
  rfl

/-- Unsplitting the joined parts reassembles the concatenated URL. -/
theorem urlunsplit_plain (n X : List Char) (hn : n ≠ []) :
    urlunsplit ⟨cl "http", n, '/' :: X, [], []⟩ = cl "http://" ++ (n ++ ('/' :: X)) := by
  have h1 : listStartsWith ('/' :: X) (cl "/") = true := by
    show (['/'] : List Char).isPrefixOf ('/' :: X) = true
    rw [ List.isPrefixOf_iff_prefix]
    exact List.cons_prefix_cons.mpr ⟨rfl, List.nil_prefix⟩
  rw [urlunsplit]
  dsimp only
  rw [if_neg (show ¬(([] : List Char) ≠ []) by simp)]
  rw [if_neg (show ¬(([] : List Char) ≠ []) by simp)]
  rw [if_pos (show cl "http" ≠ [] by decide)]
  rw [if_pos (show (decide (n ≠ []) || listStartsWith ('/' :: X) (cl "//")) = true by
    simp [hn])]
  rw [if_neg (show ¬(decide ('/' :: X ≠ []) && !listStartsWith ('/' :: X) (cl "/")) = true by
    simp [h1])]
  rfl

/-- Resolving a plain relative href against a well-behaved slash-terminated
`http` base URL with CPython's `urljoin` is plain concatenation. -/
theorem urljoin_plain (n : List Char) (dirs : List (List Char)) (href : List Char)
    (hn : cleanNetloc n) (hdirs : ∀ d ∈ dirs, cleanDir d) (hh : plainHref href) :
    urljoin (cl "http://" ++ (n ++ ('/' :: dirsPath dirs))) href
      = cl "http://" ++ (n ++ ('/' :: dirsPath dirs)) ++ href := by
  obtain ⟨hne, hd1, hd2, hsafe⟩ := hh
  have hbne : (cl "http://" ++ (n ++ ('/' :: dirsPath dirs))).isEmpty = false := rfl
  have hhne : href.isEmpty = false := by
    cases href with
    | nil => exact absurd rfl hne
    | cons c t => rfl
  simp only [urljoin, hbne, hhne, Bool.false_eq_true, if_false]
  rw [urlsplit_base n dirs hn hdirs, urlsplit_plain_href href ⟨hne, hd1, hd2, hsafe⟩]
  dsimp only
  rw [if_neg (by decide), if_neg (by decide), if_neg (by simp [hhne]),
    if_pos (by decide : cl "http" ∈ usesNetloc)]
  rw [urljoinResolvedPath_plain dirs href hdirs ⟨hne, hd1, hd2, hsafe⟩]
  rw [urlunsplit_plain n (dirsPath dirs ++ href) hn.1]
  simp

/-- C10 counterexample: the two join implementations are claimed to agree on
every parent/href pair; but for href `a b-sl.csv` the crawl engine
percent-escapes the space while the LinkScanner's plain concatenation keeps
it, so the crawl would visit `.../a%20b-sl.csv` while the processor is
handed `.../a b-sl.csv`. -/
theorem join_implementations_disagree :
    crawlChildUrl (cl "http://example.org/states/") (cl "<a href=\"a b-sl.csv\">AB</a>")
      = some (cl "http://example.org/states/a%20b-sl.csv") ∧
    (parseHref (cl "<a href=\"a b-sl.csv\">AB</a>")).bind
        (mergeParentAndRelativeUrl (cl "http://example.org/states/"))
      = some (cl "http://example.org/states/a b-sl.csv") ∧
    cl "http://example.org/states/a%20b-sl.csv" ≠ cl "http://example.org/states/a b-sl.csv" := by
  refine ⟨by decide, by decide, by decide⟩

/-- C10 (amended): the two join implementations agree on the well-behaved
inputs: a parent that trims to `http://<netloc>/<dirs...>/` with a nonempty
delimiter-free netloc and nonempty, non-dot, delimiter-free directory
segments, and a link whose href is a nonempty plain file name over
`quote`-unreserved characters (no `/`, and not `.` or `..`).  There both the
crawl engine's trim/escape/`urljoin` and the LinkScanner's trim/concatenate
produce `<trimmed parent> ++ href`. -/
theorem join_implementations_agree_on_plain_hrefs
    (parent n href link : List Char) (dirs : List (List Char))
    (hbase : trimParent parent = some (cl "http://" ++ (n ++ ('/' :: dirsPath dirs))))
    (hn : cleanNetloc n) (hdirs : ∀ d ∈ dirs, cleanDir d) (hh : plainHref href)
    (hlink : parseHref link = some href) :
    crawlChildUrl parent link
        = (parseHref link).bind (mergeParentAndRelativeUrl parent) ∧
    crawlChildUrl parent link
        = some (cl "http://" ++ (n ++ ('/' :: dirsPath dirs)) ++ href) := by
  have hquote : pyQuote href = href := pyQuote_plain href hh.2.2.2
  have hmt : mergeParentAndRelativeUrl parent href = (trimParent parent).map (· ++ href) := by
    rw [mergeParentAndRelativeUrl, trimParent]
    by_cases hp : endsWithSlash parent = true
    · rw [if_pos hp, if_pos hp]
      rfl
    · rw [if_neg hp, if_neg hp]
  have hmerge : mergeParentAndRelativeUrl parent href
      = some (cl "http://" ++ (n ++ ('/' :: dirsPath dirs)) ++ href) := by
    rw [hmt, hbase]
    rfl
  have hcrawl : crawlChildUrl parent link
      = some (urljoin (cl "http://" ++ (n ++ ('/' :: dirsPath dirs))) (pyQuote href)) := by
    simp only [crawlChildUrl, hbase, hlink]
  constructor
  · rw [hcrawl, hlink, hquote, urljoin_plain n dirs href hn hdirs hh]
    rw [show (some href).bind (mergeParentAndRelativeUrl parent)
        = mergeParentAndRelativeUrl parent href from rfl]
    rw [hmerge]
  · rw [hcrawl, hquote, urljoin_plain n dirs href hn hdirs hh]

/-- Witness for the amended C10 at the spec's example: parent
`http://example.org/states/` and href `tx-sl.csv`, where both joins give
`http://example.org/states/tx-sl.csv`. -/
theorem join_implementations_agree_on_plain_hrefs_witness :
    crawlChildUrl (cl "http://example.org/states/") (cl "<a href=\"tx-sl.csv\">TX</a>")
        = (parseHref (cl "<a href=\"tx-sl.csv\">TX</a>")).bind
            (mergeParentAndRelativeUrl (cl "http://example.org/states/")) ∧
    crawlChildUrl (cl "http://example.org/states/") (cl "<a href=\"tx-sl.csv\">TX</a>")
        = some (cl "http://" ++ (cl "example.org" ++ ('/' :: dirsPath [cl "states"]))
            ++ cl "tx-sl.csv") :=
  join_implementations_agree_on_plain_hrefs (cl "http://example.org/states/")
    (cl "example.org") (cl "tx-sl.csv") (cl "<a href=\"tx-sl.csv\">TX</a>") [cl "states"]
    (by decide) (by decide) (by decide) (by decide) (by decide)

example : parseTimestamp (cl "2016-07-20 20:34:36.844030") = .ok instMicro := by decide

example : parseTimestamp (cl "2016-07-20 20:34:36 UTC") = .error .valueError := by decide

example : getPreviousDataTimestamp [cl "2016-07-20 20:34:36.timestamp"] = .ok (some instSec) := by
  decide
